import Mathlib

/-!
Verification of the in-memory note store of the notes REST API
(`internal/repo/note_mem.go`).

The store (`NoteRepoMem`) guards a `map[int64]*core.Note` and an
auto-incrementing `next` counter with a read-write lock; every store
operation runs atomically under the lock, so the embedding models each
operation as a pure function on the store state.  `time.Now()` is made
explicit: operations that read the clock take the current time as an
extra argument.  The Go map is embedded as an association list with
Go-map update semantics (assignment overwrites the entry in place,
`delete` removes it).  The 64-bit `int64` identifiers are `Int` values
and the counter increment `r.next++` wraps in two's complement at
`2^63 - 1`, exactly as Go defines it (`int64Wrap`).
-/

namespace NotesApi

/-- The `core.Note` entity (fields as used by `internal/repo/note_mem.go`
and described by the spec's data model): `ID int64`, `Title string`,
`Content string`, `CreatedAt time.Time`, `UpdatedAt *time.Time`.
Timestamps are abstract instants modelled as `Nat`; the nilable
`UpdatedAt` pointer is an `Option`. -/
structure Note where
  id : Int
  title : String
  content : String
  createdAt : Nat
  updatedAt : Option Nat
deriving DecidableEq, Repr

/-- The sole domain error, `ErrNoteNotFound` (`repo.ErrNoteNotFound`). -/
inductive RepoError where
  | notFound
deriving DecidableEq, Repr

/-- A dynamically typed Go value, as far as the
`updates map[string]interface{}` argument of `UpdatePartial` can observe
it through the `.(string)` type assertions: a string, or any non-string
value (numbers, booleans, JSON null, ...). -/
inductive GoValue where
  | str (s : String)
  | int (n : Int)
  | bool (b : Bool)
  | null
deriving DecidableEq, Repr

/-- The Go type assertion `v.(string)`: `some s` when the value is the
string `s`, `none` (assertion fails, `ok = false`) otherwise. -/
def GoValue.assertString : GoValue → Option String
  | .str s => some s
  | _ => none

/-- Lookup in a Go map embedded as an association list:
`v, ok := m[k]`.  Returns the value at the first (unique) matching key. -/
def mapLookup (m : List (Int × Note)) (k : Int) : Option Note :=
  match m with
  | [] => none
  | (k₂, v) :: rest => if k₂ = k then some v else mapLookup rest k

/-- Go map assignment `m[k] = v`: overwrites the entry at `k` in place if
present, otherwise adds a new entry. -/
def mapInsert (m : List (Int × Note)) (k : Int) (v : Note) : List (Int × Note) :=
  match m with
  | [] => [(k, v)]
  | (k₂, w) :: rest => if k₂ = k then (k, v) :: rest else (k₂, w) :: mapInsert rest k v

/-- Go `delete(m, k)`: removes the entry at `k` if present. -/
def mapErase (m : List (Int × Note)) (k : Int) : List (Int × Note) :=
  m.filter (fun p => p.1 ≠ k)

/-- Lookup in the dynamically typed `updates` map of `UpdatePartial`
(`map[string]interface{}`). -/
def updLookup (u : List (String × GoValue)) (k : String) : Option GoValue :=
  match u with
  | [] => none
  | (k₂, v) :: rest => if k₂ = k then some v else updLookup rest k

/-- Result of Go `int64` arithmetic on the mathematical-integer value
`x`: two's-complement wraparound into
`[-9223372036854775808, 9223372036854775807]` (that is, `[-2^63, 2^63 - 1]`). -/
def int64Wrap (x : Int) : Int :=
  (x + 9223372036854775808) % 18446744073709551616 - 9223372036854775808

/-- The store state `NoteRepoMem`: the note map and the next-identifier
counter (an `int64`; the `sync.RWMutex` serialises the operations and
has no further state content). -/
structure NoteRepoMem where
  notes : List (Int × Note)
  next : Int
deriving DecidableEq, Repr

/-- Constructor `NewNoteRepoMem()`: empty map, counter starts at 1. -/
def NewNoteRepoMem : NoteRepoMem :=
  { notes := [], next := 1 }

/-- Operation `Create(n)`: assigns `n.ID = r.next`, sets `CreatedAt` to the current
time, clears `UpdatedAt`, stores the note at its id, increments `next`
(`r.next++`, an `int64` increment that wraps at `2^63 - 1`); returns
`(n.ID, nil)`.  Result: (returned id, returned error, new store
state). -/
def Create (r : NoteRepoMem) (n : Note) (now : Nat) :
    Int × Option RepoError × NoteRepoMem :=
  let n₂ : Note := { n with id := r.next, createdAt := now, updatedAt := none }
  (n₂.id, none,
    { r with notes := mapInsert r.notes n₂.id n₂, next := int64Wrap (r.next + 1) })

/-- Operation `GetByID(id)`: returns a copy of the stored note, or
`ErrNoteNotFound` when the id is absent.  (A read under the shared lock:
the state is untouched.) -/
def GetByID (r : NoteRepoMem) (id : Int) : Except RepoError Note :=
  match mapLookup r.notes id with
  | none => .error .notFound
  | some note => .ok note

/-- Operation `GetAll()`: builds a fresh non-nil slice (`make([]core.Note, 0, ...)`)
holding a copy of every stored note, and returns it with a nil error. -/
def GetAll (r : NoteRepoMem) : List Note × Option RepoError :=
  (r.notes.map Prod.snd, none)

/-- The field mutations of `UpdatePartial` on the found note:
`title` is overwritten only when `updates["title"]` asserts to a
non-empty string; `content` is overwritten whenever `updates["content"]`
asserts to a string (empty included); `UpdatedAt` is set to the current
time unconditionally. -/
def applyUpdates (note : Note) (u : List (String × GoValue)) (now : Nat) : Note :=
  let note₂ :=
    match (updLookup u "title").bind GoValue.assertString with
    | some title => if title ≠ "" then { note with title := title } else note
    | none => note
  let note₃ :=
    match (updLookup u "content").bind GoValue.assertString with
    | some content => { note₂ with content := content }
    | none => note₂
  { note₃ with updatedAt := some now }

/-- Operation `UpdatePartial(id, updates)`: `ErrNoteNotFound` when the id is absent
(store unchanged); otherwise mutates the stored note per `applyUpdates`
and returns nil.  Result: (returned error, new store state). -/
def UpdatePartial (r : NoteRepoMem) (id : Int) (u : List (String × GoValue))
    (now : Nat) : Option RepoError × NoteRepoMem :=
  match mapLookup r.notes id with
  | none => (some .notFound, r)
  | some note =>
      (none, { r with notes := mapInsert r.notes id (applyUpdates note u now) })

/-- Operation `Delete(id)`: `ErrNoteNotFound` when the id is absent (store
unchanged); otherwise removes the entry.  Result: (returned error, new
store state). -/
def Delete (r : NoteRepoMem) (id : Int) : Option RepoError × NoteRepoMem :=
  match mapLookup r.notes id with
  | none => (some .notFound, r)
  | some _ => (none, { r with notes := mapErase r.notes id })

/-- A store call in a `Create`/`Delete` sequence (claim C1). -/
inductive Op where
  | create (n : Note) (now : Nat)
  | delete (id : Int)

/-- Runs a sequence of `Create`/`Delete` calls, collecting the ids
returned by the `Create` calls in call order. -/
def runOps (r : NoteRepoMem) : List Op → NoteRepoMem × List Int
  | [] => (r, [])
  | Op.create n now :: rest =>
      let out := Create r n now
      let tail := runOps out.2.2 rest
      (tail.1, out.1 :: tail.2)
  | Op.delete id :: rest => runOps (Delete r id).2 rest

/-- Number of `Create` calls in a sequence. -/
def countCreates : List Op → Nat
  | [] => 0
  | Op.create _ _ :: rest => countCreates rest + 1
  | Op.delete _ :: rest => countCreates rest

/-- The list of `k` successive `int64` counter values starting at `s`:
each step increments with `int64` wraparound, like `r.next++`. -/
def seqIds (s : Int) : Nat → List Int
  | 0 => []
  | k + 1 => s :: seqIds (int64Wrap (s + 1)) k

/-- The `int64` counter value after `i` wrapped increments from `s`. -/
def wrapIter (s : Int) : Nat → Int
  | 0 => s
  | i + 1 => wrapIter (int64Wrap (s + 1)) i

/-- The store-state invariant of claim C2: every key of the note map is
strictly below the `next` counter, and no key occurs twice. -/
def Inv (r : NoteRepoMem) : Prop :=
  (∀ p ∈ r.notes, p.1 < r.next) ∧ (r.notes.map Prod.fst).Nodup

instance (r : NoteRepoMem) : Decidable (Inv r) := by
  unfold Inv; infer_instance

/-- Input note of `Create({title:"A", content:"x"})` (id and timestamps
are the Go zero values; the store overwrites them). -/
def noteA : Note := { id := 0, title := "A", content := "x", createdAt := 0, updatedAt := none }

/-- Input note of `Create({title:"B", content:"y"})`. -/
def noteB : Note := { id := 0, title := "B", content := "y", createdAt := 0, updatedAt := none }

/-- Input note of `Create({title:"C", content:"z"})`. -/
def noteC : Note := { id := 0, title := "C", content := "z", createdAt := 0, updatedAt := none }

/-- The concrete scenario of the spec: `Create(A)`, `Create(B)`,
`Delete(1)`, `Create(C)`. -/
def scenarioOps : List Op :=
  [Op.create noteA 10, Op.create noteB 20, Op.delete 1, Op.create noteC 30]

/-- A sequence of `2^63` `Create` calls: enough for the `int64` counter,
which starts at 1, to overflow on the last call. -/
def bigOps : List Op := List.replicate 9223372036854775808 (Op.create noteA 0)

/-- A store holding exactly the note created from `noteA` at time 10
(id 1); used as concrete input by the witness theorems. -/
def wStore : NoteRepoMem := (Create NewNoteRepoMem noteA 10).2.2

/-- The note stored in `wStore` under id 1. -/
def wNote : Note := { id := 1, title := "A", content := "x", createdAt := 10, updatedAt := none }

/-- An update-field map providing a non-empty title and an empty content. -/
def wUpd : List (String × GoValue) := [("title", GoValue.str "T"), ("content", GoValue.str "")]

/-- An update-field map whose title and content entries are present but
hold non-string values. -/
def wUpdBad : List (String × GoValue) := [("title", GoValue.int 3), ("content", GoValue.bool true)]

/-- The note stored under id 1 after `UpdatePartial wStore 1 wUpd 20`:
title overwritten by "T", content overwritten by the empty string. -/
def wNoteUpd : Note := { id := 1, title := "T", content := "", createdAt := 10, updatedAt := some 20 }

/-- The note stored under id 1 after an `UpdatePartial` at time 20 that
changes no recognized field: only `updated_at` moved. -/
def wNoteKept : Note := { id := 1, title := "A", content := "x", createdAt := 10, updatedAt := some 20 }

/-! ### Association-list (Go map) lemmas -/

theorem mapLookup_mapInsert_self (m : List (Int × Note)) (k : Int) (v : Note) :
    mapLookup (mapInsert m k v) k = some v := by
  induction m with
  | nil => simp [mapInsert, mapLookup]
  | cons p rest ih =>
      by_cases h : p.1 = k
      · simp [mapInsert, mapLookup, h]
      · simp [mapInsert, mapLookup, h, ih]

theorem mapLookup_mapInsert_ne (m : List (Int × Note)) (k k₂ : Int) (v : Note)
    (h : k₂ ≠ k) : mapLookup (mapInsert m k v) k₂ = mapLookup m k₂ := by
  have hk : ¬(k = k₂) := fun hh => h hh.symm
  induction m with
  | nil => simp [mapInsert, mapLookup, hk]
  | cons p rest ih =>
      by_cases hp : p.1 = k
      · simp [mapInsert, mapLookup, hp, hk]
      · simp [mapInsert, mapLookup, hp, ih]

theorem mapLookup_mapErase_self (m : List (Int × Note)) (k : Int) :
    mapLookup (mapErase m k) k = none := by
  induction m with
  | nil => simp [mapErase, mapLookup]
  | cons p rest ih =>
      by_cases h : p.1 = k
      · simpa [mapErase, h] using ih
      · simpa [mapErase, mapLookup, h] using ih

theorem mapLookup_mapErase_ne (m : List (Int × Note)) (k k₂ : Int) (h : k₂ ≠ k) :
    mapLookup (mapErase m k) k₂ = mapLookup m k₂ := by
  induction m with
  | nil => simp [mapErase, mapLookup]
  | cons p rest ih =>
      by_cases hp : p.1 = k
      · have hp₂ : ¬(p.1 = k₂) := by rw [hp]; exact fun hh => h hh.symm
        rw [show mapErase (p :: rest) k = mapErase rest k by simp [mapErase, hp]]
        rw [show mapLookup (p :: rest) k₂ = mapLookup rest k₂ by simp [mapLookup, hp₂]]
        exact ih
      · rw [show mapErase (p :: rest) k = p :: mapErase rest k by simp [mapErase, hp]]
        by_cases hp₂ : p.1 = k₂ <;> simp [mapLookup, hp₂, ih]

theorem mapLookup_eq_none_iff (m : List (Int × Note)) (k : Int) :
    mapLookup m k = none ↔ k ∉ m.map Prod.fst := by
  induction m with
  | nil => simp [mapLookup]
  | cons p rest ih =>
      by_cases h : p.1 = k
      · simp [mapLookup, h]
      · have hk : ¬(k = p.1) := fun hh => h hh.symm
        simp [mapLookup, h, ih, hk]

theorem mem_mapInsert (m : List (Int × Note)) (k : Int) (v : Note) (p : Int × Note) :
    p ∈ mapInsert m k v → p = (k, v) ∨ p ∈ m := by
  induction m with
  | nil => intro hp; simpa [mapInsert] using hp
  | cons q rest ih =>
      intro hp
      by_cases h : q.1 = k
      · rw [show mapInsert (q :: rest) k v = (k, v) :: rest by simp [mapInsert, h]] at hp
        rcases List.mem_cons.mp hp with hp | hp
        · exact Or.inl hp
        · exact Or.inr (List.mem_cons_of_mem _ hp)
      · rw [show mapInsert (q :: rest) k v = q :: mapInsert rest k v by
              simp [mapInsert, h]] at hp
        rcases List.mem_cons.mp hp with hp | hp
        · exact Or.inr (by simp [hp])
        · rcases ih hp with hp | hp
          · exact Or.inl hp
          · exact Or.inr (List.mem_cons_of_mem _ hp)

theorem keys_mapInsert_of_mem (m : List (Int × Note)) (k : Int) (v w : Note) :
    mapLookup m k = some w → (mapInsert m k v).map Prod.fst = m.map Prod.fst := by
  induction m with
  | nil => intro h; simp [mapLookup] at h
  | cons p rest ih =>
      intro h
      by_cases hp : p.1 = k
      · simp [mapInsert, hp]
      · rw [show mapLookup (p :: rest) k = mapLookup rest k by simp [mapLookup, hp]] at h
        simp [mapInsert, hp, ih h]

theorem keys_mapInsert_of_none (m : List (Int × Note)) (k : Int) (v : Note) :
    mapLookup m k = none → (mapInsert m k v).map Prod.fst = m.map Prod.fst ++ [k] := by
  induction m with
  | nil => intro h; simp [mapInsert]
  | cons p rest ih =>
      intro h
      by_cases hp : p.1 = k
      · simp [mapLookup, hp] at h
      · rw [show mapLookup (p :: rest) k = mapLookup rest k by simp [mapLookup, hp]] at h
        simp [mapInsert, hp, ih h]

theorem keys_mapErase_sublist (m : List (Int × Note)) (k : Int) :
    ((mapErase m k).map Prod.fst).Sublist (m.map Prod.fst) :=
  (List.filter_sublist m).map Prod.fst

theorem mem_mapErase (m : List (Int × Note)) (k : Int) (p : Int × Note)
    (hp : p ∈ mapErase m k) : p ∈ m :=
  List.mem_of_mem_filter hp

/-! ### Identifier-sequence lemmas (claim C1) -/

theorem delete_next (r : NoteRepoMem) (id : Int) : (Delete r id).2.next = r.next := by
  simp only [Delete]
  cases mapLookup r.notes id <;> rfl

theorem runOps_ids (ops : List Op) :
    ∀ r : NoteRepoMem, (runOps r ops).2 = seqIds r.next (countCreates ops) := by
  induction ops with
  | nil => intro r; rfl
  | cons op rest ih =>
      intro r
      cases op with
      | create n now =>
          show (Create r n now).1 :: (runOps (Create r n now).2.2 rest).2 =
            seqIds r.next (countCreates rest + 1)
          rw [ih (Create r n now).2.2]
          rfl
      | delete id =>
          show (runOps (Delete r id).2 rest).2 = seqIds r.next (countCreates rest)
          rw [ih (Delete r id).2, delete_next]

theorem seqIds_length (s : Int) (k : Nat) : (seqIds s k).length = k := by
  induction k generalizing s with
  | zero => rfl
  | succ k ih => simp [seqIds, ih]

theorem int64Wrap_eq_self (x : Int) (h₁ : -9223372036854775808 ≤ x)
    (h₂ : x ≤ 9223372036854775807) : int64Wrap x = x := by
  unfold int64Wrap
  omega

theorem wrapIter_in_range (s : Int) (i : Nat) (h₁ : -9223372036854775808 ≤ s)
    (h₂ : s + i ≤ 9223372036854775807) : wrapIter s i = s + i := by
  induction i generalizing s with
  | zero => simp [wrapIter]
  | succ i ih =>
      rw [show wrapIter s (i + 1) = wrapIter (int64Wrap (s + 1)) i from rfl]
      have hw : int64Wrap (s + 1) = s + 1 :=
        int64Wrap_eq_self _ (by omega) (by push_cast at h₂; omega)
      rw [hw, ih (s + 1) (by omega) (by push_cast at h₂ ⊢; omega)]
      push_cast
      ring

theorem wrapIter_succ_right (s : Int) (i : Nat) :
    wrapIter s (i + 1) = int64Wrap (wrapIter s i + 1) := by
  induction i generalizing s with
  | zero => rfl
  | succ i ih =>
      show wrapIter (int64Wrap (s + 1)) (i + 1) = int64Wrap (wrapIter (int64Wrap (s + 1)) i + 1)
      exact ih (int64Wrap (s + 1))

theorem seqIds_get_wrap (s : Int) (k : Nat) (i : Fin (seqIds s k).length) :
    (seqIds s k).get i = wrapIter s i := by
  induction k generalizing s with
  | zero => exact absurd i.2 (by simp [seqIds])
  | succ k ih =>
      match i with
      | ⟨0, _⟩ => rfl
      | ⟨j + 1, hj⟩ =>
          have hj₂ : j < (seqIds (int64Wrap (s + 1)) k).length := by
            simpa [seqIds] using Nat.lt_of_succ_lt_succ hj
          have hrec := ih (int64Wrap (s + 1)) ⟨j, hj₂⟩
          simp only [seqIds, List.get] at hrec ⊢
          exact hrec

theorem countCreates_replicate (k : Nat) (n : Note) (t : Nat) :
    countCreates (List.replicate k (Op.create n t)) = k := by
  induction k with
  | zero => rfl
  | succ k ih => simp [List.replicate, countCreates, ih]

/-- Counterexample to claim C1 as stated: because `r.next++` is an
`int64` increment that wraps at `2^63 - 1`, the universally quantified
form of the claim fails at the explicit sequence `bigOps` of `2^63`
`Create` calls — the id returned by the last call is `-2^63`, not
`2^63`, so the ids are neither `1 + i` at every position nor strictly
increasing. -/
theorem claim_C1_counterexample :
    ¬ ((∀ ops : List Op,
        (runOps NewNoteRepoMem ops).2.length = countCreates ops ∧
        (∀ i : Fin (runOps NewNoteRepoMem ops).2.length,
          (runOps NewNoteRepoMem ops).2.get i = 1 + (i : Nat)) ∧
        (runOps NewNoteRepoMem ops).2.Pairwise (· < ·)) ∧
      (runOps NewNoteRepoMem scenarioOps).2 = [1, 2, 3] ∧
      (GetAll (runOps NewNoteRepoMem scenarioOps).1).1.map Note.id = [2, 3]) := by
  rintro ⟨h, -, -⟩
  obtain ⟨hlen, hget, -⟩ := h bigOps
  have hcount : countCreates bigOps = 9223372036854775808 :=
    countCreates_replicate 9223372036854775808 noteA 0
  have hids : (runOps NewNoteRepoMem bigOps).2 = seqIds 1 (countCreates bigOps) :=
    runOps_ids bigOps NewNoteRepoMem
  have hidx : 9223372036854775807 < (runOps NewNoteRepoMem bigOps).2.length := by
    rw [hlen, hcount]; omega
  have hval := hget ⟨9223372036854775807, hidx⟩
  have hwrap : (runOps NewNoteRepoMem bigOps).2.get ⟨9223372036854775807, hidx⟩ =
      wrapIter 1 9223372036854775807 := by
    rw [List.get_of_eq hids ⟨9223372036854775807, hidx⟩, seqIds_get_wrap]
  have hbig : wrapIter 1 9223372036854775807 = -9223372036854775808 := by
    have hstep : wrapIter 1 9223372036854775807 =
        int64Wrap (wrapIter 1 9223372036854775806 + 1) :=
      wrapIter_succ_right 1 9223372036854775806
    rw [hstep, wrapIter_in_range 1 9223372036854775806 (by omega) (by omega)]
    decide
  rw [hwrap, hbig] at hval
  have hval₂ : (-9223372036854775808 : Int) = 1 + ((9223372036854775807 : Nat) : Int) :=
    hval
  exact absurd hval₂ (by decide)

/-- Claim C1 (amended): for every sequence of `Create` calls on a fresh
store, interleaved with arbitrary `Delete` calls, *as long as the total
number of `Create` calls is at most `2^63 - 1` (so the `int64` counter
never overflows)*, the ids returned by the `Create` calls are
`1, 2, 3, ...` in call order — unique, strictly increasing, starting at
1, advancing by exactly 1 per `Create` regardless of deletions.
Moreover, in the concrete scenario
`Create(A); Create(B); Delete(1); Create(C)` the returned ids are
`[1, 2, 3]` and `GetAll` then returns exactly the notes with ids 2
and 3. -/
theorem claim_C1_amended :
    (∀ ops : List Op, countCreates ops ≤ 9223372036854775807 →
      (runOps NewNoteRepoMem ops).2.length = countCreates ops ∧
      (∀ i : Fin (runOps NewNoteRepoMem ops).2.length,
        (runOps NewNoteRepoMem ops).2.get i = 1 + (i : Nat)) ∧
      (runOps NewNoteRepoMem ops).2.Pairwise (· < ·)) ∧
    (runOps NewNoteRepoMem scenarioOps).2 = [1, 2, 3] ∧
    (GetAll (runOps NewNoteRepoMem scenarioOps).1).1.map Note.id = [2, 3] := by
  refine ⟨fun ops hk => ?_, by decide, by decide⟩
  have h : (runOps NewNoteRepoMem ops).2 = seqIds 1 (countCreates ops) :=
    runOps_ids ops NewNoteRepoMem
  refine ⟨by rw [h]; exact seqIds_length 1 (countCreates ops), fun i => ?_, ?_⟩
  · rw [List.get_of_eq h i, seqIds_get_wrap]
    simp only [Fin.coe_cast]
    have hi : (i : Nat) < countCreates ops := by
      have h₂ := i.2
      have h₃ : (runOps NewNoteRepoMem ops).2.length = countCreates ops := by
        rw [h, seqIds_length]
      omega
    rw [wrapIter_in_range 1 (i : Nat) (by omega) (by omega)]
  · rw [h]
    refine List.pairwise_iff_get.mpr fun i j hij => ?_
    have hj : (j : Nat) < countCreates ops := by
      have h₂ := j.2
      have h₃ : (seqIds 1 (countCreates ops)).length = countCreates ops :=
        seqIds_length 1 (countCreates ops)
      omega
    have hij₂ : (i : Nat) < (j : Nat) := hij
    rw [seqIds_get_wrap, seqIds_get_wrap,
        wrapIter_in_range 1 (i : Nat) (by omega) (by omega),
        wrapIter_in_range 1 (j : Nat) (by omega) (by omega)]
    omega

/-- Witness for the amended claim C1 at a concrete input: the scenario
sequence has 3 creates (no overflow), and its ids have the claimed
length and are strictly increasing. -/
theorem claim_C1_witness :
    (runOps NewNoteRepoMem scenarioOps).2.length = countCreates scenarioOps ∧
    (runOps NewNoteRepoMem scenarioOps).2.Pairwise (· < ·) :=
  ⟨(claim_C1_amended.1 scenarioOps (by decide)).1,
   (claim_C1_amended.1 scenarioOps (by decide)).2.2⟩

/-! ### Branch characterizations of the store operations -/

theorem mem_of_mapLookup (m : List (Int × Note)) (k : Int) (v : Note) :
    mapLookup m k = some v → (k, v) ∈ m := by
  induction m with
  | nil => intro h; simp [mapLookup] at h
  | cons p rest ih =>
      intro h
      obtain ⟨k₂, w⟩ := p
      by_cases hp : k₂ = k
      · subst hp
        rw [show mapLookup ((k₂, w) :: rest) k₂ = some w by simp [mapLookup]] at h
        rw [show v = w from (Option.some.inj h).symm]
        exact List.mem_cons_self _ _
      · rw [show mapLookup ((k₂, w) :: rest) k = mapLookup rest k by
            simp [mapLookup, hp]] at h
        exact List.mem_cons_of_mem _ (ih h)

theorem update_err (r : NoteRepoMem) (id : Int) (u : List (String × GoValue)) (now : Nat)
    (h : mapLookup r.notes id = none) :
    UpdatePartial r id u now = (some RepoError.notFound, r) := by
  simp [UpdatePartial, h]

theorem update_ok (r : NoteRepoMem) (id : Int) (u : List (String × GoValue)) (now : Nat)
    (note : Note) (h : mapLookup r.notes id = some note) :
    UpdatePartial r id u now =
      (none, { r with notes := mapInsert r.notes id (applyUpdates note u now) }) := by
  simp [UpdatePartial, h]

theorem delete_err (r : NoteRepoMem) (id : Int) (h : mapLookup r.notes id = none) :
    Delete r id = (some RepoError.notFound, r) := by
  simp [Delete, h]

theorem delete_ok (r : NoteRepoMem) (id : Int) (note : Note)
    (h : mapLookup r.notes id = some note) :
    Delete r id = (none, { r with notes := mapErase r.notes id }) := by
  simp [Delete, h]

/-- Counterexample to claim C2 as stated: `Inv` preservation by `Create`
was claimed for *every* store state satisfying `Inv`, but at the state
with an empty map and `next = 2^63 - 1` (which satisfies `Inv`),
`Create` stores a note under key `2^63 - 1` while `r.next++` wraps the
`int64` counter to `-2^63`, so "every key is strictly below `next`"
fails afterwards. -/
theorem claim_C2_counterexample :
    ¬ (Inv NewNoteRepoMem ∧
      (∀ (r : NoteRepoMem) (n : Note) (now : Nat), Inv r → Inv (Create r n now).2.2) ∧
      (∀ (r : NoteRepoMem) (id : Int) (u : List (String × GoValue)) (now : Nat),
        Inv r → Inv (UpdatePartial r id u now).2) ∧
      (∀ (r : NoteRepoMem) (id : Int), Inv r → Inv (Delete r id).2)) := by
  rintro ⟨-, hC, -, -⟩
  exact absurd
    (hC { notes := [], next := 9223372036854775807 } noteA 0 (by decide))
    (by decide)

/-- Claim C2 (amended): the invariant "every key of the note map is
strictly below the `next` counter, and no key occurs twice" holds for a
fresh store and is preserved by every state-changing operation —
by `Create` *provided the `int64` counter has room to increment without
overflowing* (`-2^63 ≤ next < 2^63 - 1`, which holds on every reachable
state until `2^63 - 1` creates have been issued), and by `UpdatePartial`
and `Delete` unconditionally (`GetByID` and `GetAll` read under the
shared lock and do not touch the state).  Until counter overflow,
identifiers are therefore never duplicated or reused within a store's
lifetime. -/
theorem claim_C2_amended :
    Inv NewNoteRepoMem ∧
    (∀ (r : NoteRepoMem) (n : Note) (now : Nat), Inv r →
      -9223372036854775808 ≤ r.next → r.next < 9223372036854775807 →
      Inv (Create r n now).2.2) ∧
    (∀ (r : NoteRepoMem) (id : Int) (u : List (String × GoValue)) (now : Nat),
      Inv r → Inv (UpdatePartial r id u now).2) ∧
    (∀ (r : NoteRepoMem) (id : Int), Inv r → Inv (Delete r id).2) := by
  refine ⟨⟨by simp [NewNoteRepoMem], by simp [NewNoteRepoMem]⟩, ?_, ?_, ?_⟩
  · rintro r n now ⟨hb, hn⟩ hlo hhi
    have hwrap : int64Wrap (r.next + 1) = r.next + 1 :=
      int64Wrap_eq_self _ (by omega) (by omega)
    have hnone : mapLookup r.notes r.next = none := by
      rw [mapLookup_eq_none_iff]
      intro hmem
      rcases List.mem_map.mp hmem with ⟨p, hp, hfst⟩
      have := hb p hp
      omega
    constructor
    · intro p hp
      simp only [Create] at hp ⊢
      rw [hwrap]
      rcases mem_mapInsert _ _ _ _ hp with hp | hp
      · rw [hp]; show r.next < r.next + 1; omega
      · have := hb p hp; omega
    · show ((mapInsert r.notes r.next _).map Prod.fst).Nodup
      rw [keys_mapInsert_of_none _ _ _ hnone]
      refine List.Nodup.append hn (List.nodup_singleton _) ?_
      intro a ha hmem
      rcases List.mem_map.mp ha with ⟨p, hp, hfst⟩
      have := hb p hp
      have : a = r.next := by simpa using hmem
      omega
  · rintro r id u now ⟨hb, hn⟩
    cases h : mapLookup r.notes id with
    | none => rw [update_err r id u now h]; exact ⟨hb, hn⟩
    | some note =>
        rw [update_ok r id u now note h]
        constructor
        · intro p hp
          rcases mem_mapInsert _ _ _ _ hp with hp | hp
          · rw [hp]; exact hb (id, note) (mem_of_mapLookup _ _ _ h)
          · exact hb p hp
        · show ((mapInsert r.notes id _).map Prod.fst).Nodup
          rw [keys_mapInsert_of_mem _ _ _ note h]
          exact hn
  · rintro r id ⟨hb, hn⟩
    cases h : mapLookup r.notes id with
    | none => rw [delete_err r id h]; exact ⟨hb, hn⟩
    | some note =>
        rw [delete_ok r id note h]
        exact ⟨fun p hp => hb p (mem_mapErase _ _ _ hp),
          (keys_mapErase_sublist r.notes id).nodup hn⟩

/-- Witness for the amended claim C2 at concrete inputs: the invariant
holds after a create (counter far from overflow), a partial update and a
delete on concrete stores. -/
theorem claim_C2_witness :
    Inv (Create NewNoteRepoMem noteA 10).2.2 ∧
    Inv (UpdatePartial wStore 1 wUpd 20).2 ∧
    Inv (Delete wStore 1).2 :=
  ⟨claim_C2_amended.2.1 NewNoteRepoMem noteA 10 (by decide) (by decide) (by decide),
   claim_C2_amended.2.2.1 wStore 1 wUpd 20 (by decide),
   claim_C2_amended.2.2.2 wStore 1 (by decide)⟩

/-- Claim C3: `Create` never signals an error, and `GetByID` on the
returned id yields a note with the input's title and content, the
assigned id, `created_at` equal to the creation time and a null
`updated_at`. -/
theorem claim_C3 :
    ∀ (r : NoteRepoMem) (n : Note) (now : Nat),
      (Create r n now).2.1 = none ∧
      GetByID (Create r n now).2.2 (Create r n now).1 =
        Except.ok { id := (Create r n now).1, title := n.title, content := n.content,
                    createdAt := now, updatedAt := none } := by
  intro r n now
  refine ⟨rfl, ?_⟩
  show GetByID _ r.next = _
  simp [Create, GetByID, mapLookup_mapInsert_self]

/-- Claim C4: `GetByID`, `UpdatePartial` and `Delete` signal `NotFound`
exactly when the identifier is absent from the note map; `NotFound` is
the only error the store can signal at all; and after a successful
`Delete(id)`, `GetByID(id)` signals `NotFound`. -/
theorem claim_C4 :
    (∀ (r : NoteRepoMem) (id : Int),
      GetByID r id = Except.error RepoError.notFound ↔ mapLookup r.notes id = none) ∧
    (∀ (r : NoteRepoMem) (id : Int) (u : List (String × GoValue)) (now : Nat),
      (UpdatePartial r id u now).1 = some RepoError.notFound ↔
        mapLookup r.notes id = none) ∧
    (∀ (r : NoteRepoMem) (id : Int),
      (Delete r id).1 = some RepoError.notFound ↔ mapLookup r.notes id = none) ∧
    (∀ e : RepoError, e = RepoError.notFound) ∧
    (∀ (r : NoteRepoMem) (id : Int),
      (Delete r id).1 = none →
        GetByID (Delete r id).2 id = Except.error RepoError.notFound) := by
  refine ⟨?_, ?_, ?_, fun e => by cases e; rfl, ?_⟩
  · intro r id
    cases h : mapLookup r.notes id <;> simp [GetByID, h]
  · intro r id u now
    cases h : mapLookup r.notes id with
    | none => rw [update_err r id u now h]; simp
    | some note => rw [update_ok r id u now note h]; simp [h]
  · intro r id
    cases h : mapLookup r.notes id with
    | none => rw [delete_err r id h]; simp
    | some note => rw [delete_ok r id note h]; simp [h]
  · intro r id hok
    cases h : mapLookup r.notes id with
    | none => rw [delete_err r id h] at hok; simp at hok
    | some note =>
        rw [delete_ok r id note h] at hok ⊢
        simp [GetByID, mapLookup_mapErase_self]

/-- Witness for claim C4 at a concrete input: deleting id 1 from a store
holding it succeeds, and `GetByID 1` then signals `NotFound`. -/
theorem claim_C4_witness :
    GetByID (Delete wStore 1).2 1 = Except.error RepoError.notFound :=
  claim_C4.2.2.2.2 wStore 1 (by decide)

/-! ### Field behaviour of `UpdatePartial` (claims C5, C6, C7, C10) -/

theorem applyUpdates_fields (note : Note) (u : List (String × GoValue)) (now : Nat) :
    (applyUpdates note u now).id = note.id ∧
    (applyUpdates note u now).createdAt = note.createdAt ∧
    (applyUpdates note u now).updatedAt = some now ∧
    (applyUpdates note u now).title =
      (match (updLookup u "title").bind GoValue.assertString with
       | some t => if t ≠ "" then t else note.title
       | none => note.title) ∧
    (applyUpdates note u now).content =
      (match (updLookup u "content").bind GoValue.assertString with
       | some c => c
       | none => note.content) := by
  cases ht : (updLookup u "title").bind GoValue.assertString with
  | none =>
      cases hc : (updLookup u "content").bind GoValue.assertString <;>
        simp [applyUpdates, ht, hc]
  | some t =>
      cases hc : (updLookup u "content").bind GoValue.assertString <;>
        by_cases h : t = "" <;> simp [applyUpdates, ht, hc, h]

/-- Claim C5: a successful `UpdatePartial` stores a note whose title is
overwritten exactly when a string title was provided and is non-empty (a
provided empty-string title is silently ignored), whose content is
overwritten whenever a string content was provided — the empty string
included — and whose title/content stay unchanged when the field is
absent. -/
theorem claim_C5 :
    ∀ (r : NoteRepoMem) (id : Int) (u : List (String × GoValue)) (now : Nat) (note : Note),
      mapLookup r.notes id = some note →
      (UpdatePartial r id u now).1 = none ∧
      ∀ note₂, mapLookup (UpdatePartial r id u now).2.notes id = some note₂ →
        note₂.title =
          (match updLookup u "title" with
           | some (GoValue.str t) => if t = "" then note.title else t
           | _ => note.title) ∧
        note₂.content =
          (match updLookup u "content" with
           | some (GoValue.str c) => c
           | _ => note.content) := by
  intro r id u now note h
  rw [update_ok r id u now note h]
  refine ⟨rfl, fun note₂ hn₂ => ?_⟩
  have hn₂ : note₂ = applyUpdates note u now := by
    have := mapLookup_mapInsert_self r.notes id (applyUpdates note u now)
    simp only at hn₂
    rw [this] at hn₂
    exact (Option.some.inj hn₂).symm
  subst hn₂
  obtain ⟨-, -, -, htitle, hcontent⟩ := applyUpdates_fields note u now
  constructor
  · rw [htitle]
    cases ht : updLookup u "title" with
    | none => simp [ht]
    | some v =>
        cases v with
        | str t =>
            by_cases he : t = "" <;> simp [ht, GoValue.assertString, he]
        | int n => simp [ht, GoValue.assertString]
        | bool b => simp [ht, GoValue.assertString]
        | null => simp [ht, GoValue.assertString]
  · rw [hcontent]
    cases hc : updLookup u "content" with
    | none => simp [hc]
    | some v =>
        cases v with
        | str c => simp [hc, GoValue.assertString]
        | int n => simp [hc, GoValue.assertString]
        | bool b => simp [hc, GoValue.assertString]
        | null => simp [hc, GoValue.assertString]

/-- Witness for claim C5 at a concrete input: updating the stored note
with title "T" and empty content stores title "T" and content "". -/
theorem claim_C5_witness :
    (UpdatePartial wStore 1 wUpd 20).1 = none ∧
    (wNoteUpd.title =
      (match updLookup wUpd "title" with
       | some (GoValue.str t) => if t = "" then wNote.title else t
       | _ => wNote.title) ∧
     wNoteUpd.content =
      (match updLookup wUpd "content" with
       | some (GoValue.str c) => c
       | _ => wNote.content)) :=
  ⟨(claim_C5 wStore 1 wUpd 20 wNote (by decide)).1,
   (claim_C5 wStore 1 wUpd 20 wNote (by decide)).2 wNoteUpd (by decide)⟩

/-- Claim C6: every `UpdatePartial` call that finds its identifier sets
the stored note's `updated_at` to the update time, even when no
recognized field changed value; after a successful call `updated_at` is
non-null. -/
theorem claim_C6 :
    ∀ (r : NoteRepoMem) (id : Int) (u : List (String × GoValue)) (now : Nat),
      (UpdatePartial r id u now).1 = none →
      (mapLookup (UpdatePartial r id u now).2.notes id).isSome = true ∧
      ∀ note₂, mapLookup (UpdatePartial r id u now).2.notes id = some note₂ →
        note₂.updatedAt = some now := by
  intro r id u now hok
  cases h : mapLookup r.notes id with
  | none => rw [update_err r id u now h] at hok; simp at hok
  | some note =>
      rw [update_ok r id u now note h]
      have hself := mapLookup_mapInsert_self r.notes id (applyUpdates note u now)
      constructor
      · simp [hself]
      · intro note₂ hn₂
        simp only at hn₂
        rw [hself] at hn₂
        rw [← Option.some.inj hn₂]
        exact (applyUpdates_fields note u now).2.2.1

/-- Witness for claim C6 at a concrete input: an `UpdatePartial` with an
empty field set (a no-op update) still sets `updated_at` to time 20. -/
theorem claim_C6_witness :
    (mapLookup (UpdatePartial wStore 1 [] 20).2.notes 1).isSome = true ∧
    wNoteKept.updatedAt = some 20 :=
  ⟨(claim_C6 wStore 1 [] 20 (by decide)).1,
   (claim_C6 wStore 1 [] 20 (by decide)).2 wNoteKept (by decide)⟩

/-- Claim C7: frame conditions — `UpdatePartial` keeps the target note's
id and `created_at` and leaves every other note untouched; `Create` and
`Delete` leave every note other than the created/deleted one untouched;
no operation modifies a note's `created_at` after creation. -/
theorem claim_C7 :
    (∀ (r : NoteRepoMem) (id : Int) (u : List (String × GoValue)) (now : Nat) (k : Int),
      k ≠ id → mapLookup (UpdatePartial r id u now).2.notes k = mapLookup r.notes k) ∧
    (∀ (r : NoteRepoMem) (id : Int) (u : List (String × GoValue)) (now : Nat) (note : Note),
      mapLookup r.notes id = some note →
      ∀ note₂, mapLookup (UpdatePartial r id u now).2.notes id = some note₂ →
        note₂.id = note.id ∧ note₂.createdAt = note.createdAt) ∧
    (∀ (r : NoteRepoMem) (n : Note) (now : Nat) (k : Int),
      k ≠ (Create r n now).1 →
      mapLookup (Create r n now).2.2.notes k = mapLookup r.notes k) ∧
    (∀ (r : NoteRepoMem) (id : Int) (k : Int),
      k ≠ id → mapLookup (Delete r id).2.notes k = mapLookup r.notes k) := by
  refine ⟨?_, ?_, ?_, ?_⟩
  · intro r id u now k hk
    cases h : mapLookup r.notes id with
    | none => rw [update_err r id u now h]
    | some note =>
        rw [update_ok r id u now note h]
        exact mapLookup_mapInsert_ne r.notes id k _ hk
  · intro r id u now note h note₂ hn₂
    rw [update_ok r id u now note h] at hn₂
    simp only at hn₂
    rw [mapLookup_mapInsert_self r.notes id (applyUpdates note u now)] at hn₂
    rw [← Option.some.inj hn₂]
    obtain ⟨h₁, h₂, -, -, -⟩ := applyUpdates_fields note u now
    exact ⟨h₁, h₂⟩
  · intro r n now k hk
    exact mapLookup_mapInsert_ne r.notes r.next k _ hk
  · intro r id k hk
    cases h : mapLookup r.notes id with
    | none => rw [delete_err r id h]
    | some note =>
        rw [delete_ok r id note h]
        exact mapLookup_mapErase_ne r.notes id k hk

/-- Witness for claim C7 at concrete inputs: id 5 is unaffected by an
update, a create and a delete targeting other ids, and the updated note
keeps id 1 and creation time 10. -/
theorem claim_C7_witness :
    mapLookup (UpdatePartial wStore 1 wUpd 20).2.notes 5 = mapLookup wStore.notes 5 ∧
    (wNoteUpd.id = wNote.id ∧ wNoteUpd.createdAt = wNote.createdAt) ∧
    mapLookup (Create wStore noteB 20).2.2.notes 5 = mapLookup wStore.notes 5 ∧
    mapLookup (Delete wStore 1).2.notes 5 = mapLookup wStore.notes 5 :=
  ⟨claim_C7.1 wStore 1 wUpd 20 5 (by decide),
   claim_C7.2.1 wStore 1 wUpd 20 wNote (by decide) wNoteUpd (by decide),
   claim_C7.2.2.1 wStore noteB 20 5 (by decide),
   claim_C7.2.2.2 wStore 1 5 (by decide)⟩

/-- Claim C8: whenever `UpdatePartial` or `Delete` signals an error, the
whole store state — note map and next-identifier counter — is exactly
what it was before the call. -/
theorem claim_C8 :
    (∀ (r : NoteRepoMem) (id : Int) (u : List (String × GoValue)) (now : Nat),
      (UpdatePartial r id u now).1.isSome = true → (UpdatePartial r id u now).2 = r) ∧
    (∀ (r : NoteRepoMem) (id : Int),
      (Delete r id).1.isSome = true → (Delete r id).2 = r) := by
  constructor
  · intro r id u now herr
    cases h : mapLookup r.notes id with
    | none => rw [update_err r id u now h]
    | some note => rw [update_ok r id u now note h] at herr; simp at herr
  · intro r id herr
    cases h : mapLookup r.notes id with
    | none => rw [delete_err r id h]
    | some note => rw [delete_ok r id note h] at herr; simp at herr

/-- Witness for claim C8 at a concrete input: updating and deleting an
absent id on a fresh store fails and leaves the store untouched. -/
theorem claim_C8_witness :
    (UpdatePartial NewNoteRepoMem 7 wUpd 20).2 = NewNoteRepoMem ∧
    (Delete NewNoteRepoMem 7).2 = NewNoteRepoMem :=
  ⟨claim_C8.1 NewNoteRepoMem 7 wUpd 20 (by decide),
   claim_C8.2 NewNoteRepoMem 7 (by decide)⟩

/-- Claim C9: `GetAll` always succeeds (nil error) and returns the
stored notes themselves — each stored note as often as it is stored
(exactly once, the keys being unique), and nothing else; on an empty
store it returns the empty sequence built by `make([]core.Note, 0, ...)`,
never a nil slice. -/
theorem claim_C9 :
    (∀ r : NoteRepoMem, (GetAll r).2 = none) ∧
    (∀ (r : NoteRepoMem) (v : Note),
      (GetAll r).1.count v = (r.notes.map Prod.snd).count v) ∧
    (∀ r : NoteRepoMem, r.notes = [] → (GetAll r).1 = []) := by
  refine ⟨fun r => rfl, fun r v => rfl, fun r h => ?_⟩
  simp [GetAll, h]

/-- Witness for claim C9 at a concrete input: `GetAll` on a fresh store
returns the empty sequence. -/
theorem claim_C9_witness : (GetAll NewNoteRepoMem).1 = [] :=
  claim_C9.2.2 NewNoteRepoMem rfl

/-- Claim C10: an `UpdatePartial` whose "title" or "content" entry holds
a non-string value treats that entry as absent — the field is left
unchanged, no error is signalled, and `updated_at` is still set to the
update time. -/
theorem claim_C10 :
    ∀ (r : NoteRepoMem) (id : Int) (u : List (String × GoValue)) (now : Nat)
      (note : Note) (v : GoValue),
      mapLookup r.notes id = some note →
      (UpdatePartial r id u now).1 = none ∧
      (updLookup u "title" = some v → v.assertString = none →
        ∀ note₂, mapLookup (UpdatePartial r id u now).2.notes id = some note₂ →
          note₂.title = note.title ∧ note₂.updatedAt = some now) ∧
      (updLookup u "content" = some v → v.assertString = none →
        ∀ note₂, mapLookup (UpdatePartial r id u now).2.notes id = some note₂ →
          note₂.content = note.content ∧ note₂.updatedAt = some now) := by
  intro r id u now note v h
  rw [update_ok r id u now note h]
  have hself := mapLookup_mapInsert_self r.notes id (applyUpdates note u now)
  obtain ⟨-, -, hupd, htitle, hcontent⟩ := applyUpdates_fields note u now
  refine ⟨rfl, ?_, ?_⟩
  · intro ht hv note₂ hn₂
    simp only at hn₂
    rw [hself] at hn₂
    rw [← Option.some.inj hn₂]
    refine ⟨?_, hupd⟩
    rw [htitle, ht]
    simp [hv]
  · intro hc hv note₂ hn₂
    simp only at hn₂
    rw [hself] at hn₂
    rw [← Option.some.inj hn₂]
    refine ⟨?_, hupd⟩
    rw [hcontent, hc]
    simp [hv]

/-- Witness for claim C10 at a concrete input: an update map carrying a
number as title and a boolean as content leaves title and content
unchanged and still sets `updated_at` to 20. -/
theorem claim_C10_witness :
    (UpdatePartial wStore 1 wUpdBad 20).1 = none ∧
    (wNoteKept.title = wNote.title ∧ wNoteKept.updatedAt = some 20) ∧
    (wNoteKept.content = wNote.content ∧ wNoteKept.updatedAt = some 20) :=
  ⟨(claim_C10 wStore 1 wUpdBad 20 wNote (GoValue.int 3) (by decide)).1,
   (claim_C10 wStore 1 wUpdBad 20 wNote (GoValue.int 3) (by decide)).2.1
     (by decide) (by decide) wNoteKept (by decide),
   (claim_C10 wStore 1 wUpdBad 20 wNote (GoValue.bool true) (by decide)).2.2
     (by decide) (by decide) wNoteKept (by decide)⟩

end NotesApi
